import Mathlib

/-!
Model of the asynchronous HTTP pipeline (msrest/pipeline/async_abc.py):
a shallow embedding of the pipeline assembly and execution model of
`src/msrest/pipeline/async_abc.py`.

Modelling conventions:

* A Python request object is mutated in place as it travels down the chain;
  we model this by threading the request value explicitly: every `send`
  returns the (possibly mutated) request together with either a response or
  a raised error.  The pair type `SendResult` keeps the request component
  even in the error case, because in Python an exception does not roll back
  mutations already performed on the request object.
* `async`/`await` suspension points have no observable effect on the values
  computed within a single run (a single run is strictly sequential), so the
  embedding is a plain function.
* `**kwargs` options are passed through the chain unchanged by every
  component in the source; they play no role in any modelled property and
  are omitted.
* The abstract classes `AsyncHTTPPolicy`, `SansIOHTTPPolicy` (imported from
  the sibling module) and `AsyncHTTPSender` are collaborator interfaces:
  we model an implementation of each as a structure of functions.  A full
  policy's `send` receives, besides the request, the `send` of its `next`
  node as a function (that is what `self.next.send` denotes once the
  pipeline has linked the chain); it may call it zero, one or many times.
* An `AsyncHTTPSender` owns transport-scoped resources whose state changes
  on scope enter/exit (`__aenter__`/`__aexit__`); we model that internal
  state by a type `σ` with explicit transitions, and the sender's `send`
  and `build_context` may read it.
-/

namespace MsrestAsyncPipeline

/-- A client request: the opaque `pipeline_context` attribute that
`AsyncPipeline.run` assigns (`request.pipeline_context = context`), plus all
remaining request data (method, url, headers, body ...) abstracted as `α`. -/
structure ClientRequest (α ctx : Type) where
  pipeline_context : Option ctx
  data : α

/-- The outcome of a `send`: the request as mutated so far, together with
either a response (`Except.ok`) or a raised error (`Except.error`).  The
request component is meaningful in both cases: a Python exception leaves
in-place request mutations behind. -/
abbrev SendResult (α ctx ρ ε : Type) := ClientRequest α ctx × Except ε ρ

/-- The type of a node's `send` method, once bound to the node. -/
abbrev SendFn (α ctx ρ ε : Type) := ClientRequest α ctx → SendResult α ctx ρ ε

/-- An implementation of the simplified (sans-IO) policy interface
`SansIOHTTPPolicy`: two hooks, `on_request` mutating the request and
`on_response` mutating request and response, with no forwarding control. -/
structure SansIOHTTPPolicy (α ctx ρ : Type) where
  on_request : ClientRequest α ctx → ClientRequest α ctx
  on_response : ClientRequest α ctx → ρ → ClientRequest α ctx × ρ

/-- An implementation of the full policy interface `AsyncHTTPPolicy`:
`send` receives the request and the bound `send` of the next node
(`self.next.send`); it may mutate the request, forward zero, one or many
times, inspect or replace the outcome. -/
structure AsyncHTTPPolicy (α ctx ρ ε : Type) where
  send : ClientRequest α ctx → SendFn α ctx ρ ε → SendResult α ctx ρ ε

/-- An implementation of the transport interface `AsyncHTTPSender`, with
internal (transport-scoped) state `σ`:

* `send` performs the exchange, reading the internal state;
* `build_context` builds the opaque per-run context (the source's default
  implementation returns `None`, hence the default value here);
* `aenter`/`aexit` are the state transitions of `__aenter__`/`__aexit__`. -/
structure AsyncHTTPSender (σ α ctx ρ ε : Type) where
  send : σ → SendFn α ctx ρ ε
  aenter : σ → σ
  aexit : σ → σ
  build_context : σ → Option ctx := fun _ => none

/-- The Python `TypeError` raised by the synchronous context-manager entry
points of `AsyncPipeline` and `AsyncHTTPSender`. -/
inductive PyUsageError where
  | typeError (msg : String)
deriving DecidableEq

/-- `AsyncHTTPSender.__enter__`: the synchronous entry point on the async
sender, which unconditionally raises `TypeError("Use async with instead")`. -/
def AsyncHTTPSender.enterSync (s : AsyncHTTPSender σ α ctx ρ ε) :
    Except PyUsageError (AsyncHTTPSender σ α ctx ρ ε) :=
  Except.error (PyUsageError.typeError "Use async with instead")

/-- The send of `_SansIOAsyncHTTPPolicyRunner`, the adapter wrapping a
simplified policy (source lines 85-89):

    self._policy.on_request(request, **kwargs)
    response = await self.next.send(request, **kwargs)
    self._policy.on_response(request, response, **kwargs)
    return response

`on_request` mutates the request, the adapter forwards to `next.send`; a
raised error propagates (with the request mutations performed so far),
otherwise `on_response` mutates request and response and the response is
returned. -/
def sansIORunnerSend (p : SansIOHTTPPolicy α ctx ρ) (next : SendFn α ctx ρ ε) :
    SendFn α ctx ρ ε :=
  fun req =>
    match next (p.on_request req) with
    | (req2, Except.error e) => (req2, Except.error e)
    | (req2, Except.ok resp) =>
        let r3 := p.on_response req2 resp
        (r3.1, Except.ok r3.2)

/-- A node of the linked chain stored in `AsyncPipeline._impl_policies`:
either a full policy, or a simplified policy wrapped in the
`_SansIOAsyncHTTPPolicyRunner` adapter. -/
inductive ImplPolicy (α ctx ρ ε : Type) where
  | full (p : AsyncHTTPPolicy α ctx ρ ε)
  | sansioRunner (p : SansIOHTTPPolicy α ctx ρ)

/-- The `send` of a chain node, once its `next` reference is bound to the
following node's `send` (`nextSend`). -/
def ImplPolicy.sendWith (node : ImplPolicy α ctx ρ ε)
    (nextSend : SendFn α ctx ρ ε) : SendFn α ctx ρ ε :=
  match node with
  | ImplPolicy.full p => fun req => p.send req nextSend
  | ImplPolicy.sansioRunner p => sansIORunnerSend p nextSend

/-- What the caller of `AsyncPipeline.__init__` may pass in the `policies`
list: `Union[AsyncHTTPPolicy, SansIOHTTPPolicy]`. -/
inductive PipelinePolicyArg (α ctx ρ ε : Type) where
  | full (p : AsyncHTTPPolicy α ctx ρ ε)
  | sansio (p : SansIOHTTPPolicy α ctx ρ)

/-- The `isinstance` dispatch of the construction loop: a `SansIOHTTPPolicy`
is appended wrapped in `_SansIOAsyncHTTPPolicyRunner`, a full policy is
appended as is. -/
def wrapPolicy : PipelinePolicyArg α ctx ρ ε → ImplPolicy α ctx ρ ε
  | PipelinePolicyArg.full p => ImplPolicy.full p
  | PipelinePolicyArg.sansio p => ImplPolicy.sansioRunner p

/-- The pipeline state after `AsyncPipeline.__init__`: the wrapped policy
list and the sender.  (When no sender is given the source instantiates the
default `AioHTTPSender`; the concrete transport is outside this core, so
the model takes the sender as a parameter.) -/
structure AsyncPipeline (σ α ctx ρ ε : Type) where
  _impl_policies : List (ImplPolicy α ctx ρ ε)
  _sender : AsyncHTTPSender σ α ctx ρ ε

/-- `AsyncPipeline.__init__`: wrap each policy (in order), keep the sender.
The `next`-linking loop is modelled separately (`nextAssignments` below);
its net effect on execution is realised by `chainSend`. -/
def AsyncPipeline.init (policies : List (PipelinePolicyArg α ctx ρ ε))
    (sender : AsyncHTTPSender σ α ctx ρ ε) : AsyncPipeline σ α ctx ρ ε :=
  { _impl_policies := policies.map wrapPolicy
    _sender := sender }

/-- `AsyncPipeline.__enter__`: unconditionally raises
`TypeError("Use async with instead")`. -/
def AsyncPipeline.enterSync (p : AsyncPipeline σ α ctx ρ ε) :
    Except PyUsageError (AsyncPipeline σ α ctx ρ ε) :=
  Except.error (PyUsageError.typeError "Use async with instead")

/-- `AsyncPipeline.__aenter__`: delegates to the sender's `__aenter__`
(the pipeline owns no further resources) and returns `self`. -/
def AsyncPipeline.aenter (p : AsyncPipeline σ α ctx ρ ε) (s : σ) : σ :=
  p._sender.aenter s

/-- `AsyncPipeline.__aexit__`: delegates to the sender's `__aexit__`. -/
def AsyncPipeline.aexit (p : AsyncPipeline σ α ctx ρ ε) (s : σ) : σ :=
  p._sender.aexit s

/-- The bound `send` of the chain formed by the given nodes followed by the
sender's bound send `senderSend`.  This realises the `next` links that
`__init__` creates: node `i`'s `next` is node `i+1` and the last node's
`next` is the sender, so each node's `self.next.send` is the chain send of
the remaining nodes; with no nodes the chain send is the sender's send. -/
def chainSend (nodes : List (ImplPolicy α ctx ρ ε))
    (senderSend : SendFn α ctx ρ ε) : SendFn α ctx ρ ε :=
  match nodes with
  | [] => senderSend
  | node :: rest => node.sendWith (chainSend rest senderSend)

/-- `AsyncPipeline.run` (source lines 158-162), with the sender's internal
state `s` explicit:

    context = self._sender.build_context()
    request.pipeline_context = context
    first_node = self._impl_policies[0] if self._impl_policies else self._sender
    return await first_node.send(request, **kwargs)
-/
def AsyncPipeline.run (p : AsyncPipeline σ α ctx ρ ε) (s : σ)
    (req : ClientRequest α ctx) : SendResult α ctx ρ ε :=
  let context := p._sender.build_context s
  let req2 : ClientRequest α ctx := { req with pipeline_context := context }
  chainSend p._impl_policies (p._sender.send s) req2

/-- The body of `run` contains no assignment to `self`, to
`self._impl_policies`, to `self._sender` or to any node's `next`; this
variant threads the pipeline object through to record that fact: the
returned pipeline is the one passed in, untouched. -/
def AsyncPipeline.runThreading (p : AsyncPipeline σ α ctx ρ ε) (s : σ)
    (req : ClientRequest α ctx) :
    AsyncPipeline σ α ctx ρ ε × SendResult α ctx ρ ε :=
  (p, p.run s req)

/-- What the spec means by calling the sender directly: attach the sender's
`build_context()` result to the request, then call the sender's `send`.
(Spec side of the refinement claim about an empty policy list.) -/
def directSenderCall (sender : AsyncHTTPSender σ α ctx ρ ε) (s : σ)
    (req : ClientRequest α ctx) : SendResult α ctx ρ ε :=
  sender.send s { req with pipeline_context := sender.build_context s }

/-! ## The chain topology created by the linking loop

`__init__` links the chain through mutable `next` attributes:

    for index in range(len(self._impl_policies)-1):
        self._impl_policies[index].next = self._impl_policies[index+1]
    if self._impl_policies:
        self._impl_policies[-1].next = self._sender

We model the nodes of a pipeline with `n` policies by references: policy
index or sender, record the exact sequence of `next`-assignments the loop
performs, and derive the resulting `next` map by replaying the assignments
over the initial all-`None` map (each `AsyncHTTPPolicy.__init__` sets
`self.next = None`). -/

/-- A reference to a node of the chain: the policy node at a given index of
`_impl_policies`, or the sender. -/
inductive NodeRef where
  | policy (i : Nat)
  | sender
deriving DecidableEq

/-- The `next`-assignments performed by the linking loop of `__init__` for a
pipeline with `n` policies, in order: `(i, r)` means policy `i`'s `next` is
assigned the node `r`.  `List.range (n-1)` is Python's `range(n-1)` (empty
when `n = 0`), and the trailing assignment exists exactly when the policy
list is non-empty. -/
def nextAssignments (n : Nat) : List (Nat × NodeRef) :=
  (List.range (n - 1)).map (fun i => (i, NodeRef.policy (i + 1)))
    ++ (if n ≠ 0 then [(n - 1, NodeRef.sender)] else [])

/-- Replay a list of assignments over a `next` map, later assignments
winning, as sequential attribute assignment does. -/
def applyAssignments (l : List (Nat × NodeRef)) (m : Nat → Option NodeRef) :
    Nat → Option NodeRef :=
  l.foldl (fun m' a => fun j => if j = a.1 then some a.2 else m' j) m

/-- The `next` map of the policy nodes after `__init__` for a pipeline with
`n` policies: the assignments replayed over the initial all-`None` map. -/
def nextOf (n : Nat) : Nat → Option NodeRef :=
  applyAssignments (nextAssignments n) (fun _ => none)

/-- The `next` reference of any chain node: policy nodes per `nextOf`; the
sender has no `next` attribute, so it terminates every walk. -/
def nextRef (n : Nat) : NodeRef → Option NodeRef
  | NodeRef.policy i => nextOf n i
  | NodeRef.sender => none

/-- `run`'s choice of entry node:
`self._impl_policies[0] if self._impl_policies else self._sender`. -/
def firstNode (n : Nat) : NodeRef :=
  if n = 0 then NodeRef.sender else NodeRef.policy 0

/-- The nodes reachable by following `next` references from `x`, cut off
after `fuel` steps; a node whose `next` is unset ends the walk. -/
def walk (nf : NodeRef → Option NodeRef) : Nat → NodeRef → List NodeRef
  | 0, x => [x]
  | fuel + 1, x =>
      x :: (match nf x with
            | none => []
            | some y => walk nf fuel y)

/-- The chain a pipeline with `n` policies is supposed to form: the policy
nodes in order, then the sender. -/
def chainList (n : Nat) : List NodeRef :=
  (List.range n).map NodeRef.policy ++ [NodeRef.sender]

/-! ## Derived forms and concrete instrumentation instances

`sansioChain`, `seenRequests` and `onRequestFold` restate the behaviour of
an all-simplified chain by recursion over the policy list; the lemmas below
( `chainSend_sansio` ... ) tie them to the execution model.  The concrete
policies and senders instrument requests (through their `data` component)
to observe invocation order and counts in closed theorems. -/

/-- The result of a chain made only of adapter-wrapped simplified policies,
written by recursion over the underlying policy list; `last` is the bound
send of the node after the chain (the sender).  Proven equal to `chainSend`
on the wrapped list in `chainSend_sansio`. -/
def sansioChain (ps : List (SansIOHTTPPolicy α ctx ρ)) (last : SendFn α ctx ρ ε)
    (req : ClientRequest α ctx) : SendResult α ctx ρ ε :=
  match ps with
  | [] => last req
  | p :: rest =>
      match sansioChain rest last (p.on_request req) with
      | (req2, Except.error e) => (req2, Except.error e)
      | (req2, Except.ok resp) =>
          let r3 := p.on_response req2 resp
          (r3.1, Except.ok r3.2)

/-- The request as received by each node of an all-simplified chain, in
order: element `i` is the request policy `i`'s `on_request` is invoked on,
and the final element is the request handed to the node after the chain
(the sender). -/
def seenRequests (ps : List (SansIOHTTPPolicy α ctx ρ)) (req : ClientRequest α ctx) :
    List (ClientRequest α ctx) :=
  match ps with
  | [] => [req]
  | p :: rest => req :: seenRequests rest (p.on_request req)

/-- The request that reaches the node after an all-simplified chain: all
`on_request` hooks applied in order. -/
def onRequestFold (ps : List (SansIOHTTPPolicy α ctx ρ)) (req : ClientRequest α ctx) :
    ClientRequest α ctx :=
  ps.foldl (fun r p => p.on_request r) req

/-- A simplified policy that appends trace entries to the request data. -/
def policyA : SansIOHTTPPolicy (List String) Unit Nat :=
  { on_request := fun r => { r with data := r.data ++ ["A.on_request"] }
    on_response := fun r s => ({ r with data := r.data ++ ["A.on_response"] }, s) }

/-- A full policy that records its invocation and forwards once. -/
def policyB : AsyncHTTPPolicy (List String) Unit Nat String :=
  { send := fun r next => next { r with data := r.data ++ ["B.send"] } }

/-- A transport that records its invocation and answers 200. -/
def traceSender : AsyncHTTPSender Unit (List String) Unit Nat String :=
  { send := fun _ r => ({ r with data := r.data ++ ["sender.send"] }, Except.ok 200)
    aenter := id
    aexit := id }

/-- A fresh request with an empty trace. -/
def traceReq : ClientRequest (List String) Unit :=
  { pipeline_context := none, data := [] }

/-- A simplified policy whose hooks do nothing (the default bodies of
`SansIOHTTPPolicy`). -/
def idPolicy : SansIOHTTPPolicy Unit Unit Nat :=
  { on_request := fun r => r
    on_response := fun r s => (r, s) }

/-- A full policy that short-circuits: it answers 7 without ever touching
its `next` reference. -/
def pconst : AsyncHTTPPolicy Unit Unit Nat String :=
  { send := fun r _ => (r, Except.ok 7) }

/-- A transport that always answers 200. -/
def senderOk : AsyncHTTPSender Unit Unit Unit Nat String :=
  { send := fun _ r => (r, Except.ok 200)
    aenter := id
    aexit := id }

/-- A transport whose send always raises. -/
def senderBoom : AsyncHTTPSender Unit Unit Unit Nat String :=
  { send := fun _ r => (r, Except.error "boom")
    aenter := id
    aexit := id }

/-- A fresh request with no data. -/
def unitReq : ClientRequest Unit Unit :=
  { pipeline_context := none, data := () }

/-- A simplified policy with no-op hooks over a counting request. -/
def idPolicyCount : SansIOHTTPPolicy Nat Unit Nat :=
  { on_request := fun r => r
    on_response := fun r s => (r, s) }

/-- A simplified policy with no-op hooks over a `Nat` context. -/
def idPolicyCtx : SansIOHTTPPolicy Unit Nat Nat :=
  { on_request := fun r => r
    on_response := fun r s => (r, s) }

/-- A transport that overrides `build_context` to a non-null value. -/
def ctxSender : AsyncHTTPSender Unit Unit Nat Nat String :=
  { send := fun _ r => (r, Except.ok 200)
    aenter := id
    aexit := id
    build_context := fun _ => some 5 }

/-- A fresh request with a `Nat` context slot. -/
def natCtxReq : ClientRequest Unit Nat :=
  { pipeline_context := none, data := () }

/-- The scope states of the pipeline lifecycle (unopened, open, closed). -/
inductive ScopeState where
  | unopened
  | opened
  | closed
deriving DecidableEq

/-- A transport whose send works regardless of the scope state. -/
def obliviousSender : AsyncHTTPSender ScopeState Unit Unit Nat String :=
  { send := fun _ r => (r, Except.ok 200)
    aenter := fun _ => ScopeState.opened
    aexit := fun _ => ScopeState.closed }

/-- A transport whose send fails unless its scope was entered. -/
def strictSender : AsyncHTTPSender ScopeState Unit Unit Nat String :=
  { send := fun s r =>
      (r, if s = ScopeState.opened then Except.ok 200 else Except.error "session is not open")
    aenter := fun _ => ScopeState.opened
    aexit := fun _ => ScopeState.closed }

theorem applyAssignments_append (l₁ l₂ : List (Nat × NodeRef))
    (m : Nat → Option NodeRef) :
    applyAssignments (l₁ ++ l₂) m = applyAssignments l₂ (applyAssignments l₁ m) := by
  simp [applyAssignments, List.foldl_append]

theorem applyAssignments_not_mem (l : List (Nat × NodeRef))
    (m : Nat → Option NodeRef) (j : Nat) (h : j ∉ l.map Prod.fst) :
    applyAssignments l m j = m j := by
  induction l generalizing m with
  | nil => rfl
  | cons a t ih =>
      simp only [List.map_cons, List.mem_cons] at h
      push_neg at h
      simp only [applyAssignments, List.foldl_cons] at *
      rw [ih _ h.2]
      simp [h.1]

theorem applyAssignments_range (k : Nat) (f : Nat → NodeRef)
    (m : Nat → Option NodeRef) (j : Nat) :
    applyAssignments ((List.range k).map (fun i => (i, f i))) m j
      = if j < k then some (f j) else m j := by
  induction k generalizing m with
  | zero => simp [applyAssignments]
  | succ k ih =>
      rw [List.range_succ, List.map_append, applyAssignments_append]
      simp only [List.map_cons, List.map_nil]
      by_cases hj : j = k
      · subst hj
        simp [applyAssignments]
      · have : applyAssignments [(k, f k)] (applyAssignments ((List.range k).map (fun i => (i, f i))) m) j
            = applyAssignments ((List.range k).map (fun i => (i, f i))) m j := by
          simp [applyAssignments, hj]
        rw [this, ih]
        rcases Nat.lt_or_ge j k with h | h
        · simp [h, Nat.lt_succ_of_lt h]
        · have h1 : ¬ j < k := Nat.not_lt.mpr h
          have h2 : ¬ j < k + 1 := by omega
          simp [h1, h2]

/-- Characterisation of the `next` map the linking loop produces: inner
policies point at their successor, the last policy points at the sender,
and out-of-range indices (no such node) stay `None`. -/
theorem nextOf_eq (n j : Nat) :
    nextOf n j = if j + 1 < n then some (NodeRef.policy (j + 1))
      else if j + 1 = n then some NodeRef.sender else none := by
  unfold nextOf nextAssignments
  rcases Nat.eq_zero_or_pos n with hn | hn
  · subst hn
    simp [applyAssignments]
  · have hne : n ≠ 0 := Nat.pos_iff_ne_zero.mp hn
    rw [if_pos hne, applyAssignments_append]
    by_cases hj : j = n - 1
    · subst hj
      have h1 : ¬ (n - 1) + 1 < n := by omega
      have h2 : (n - 1) + 1 = n := by omega
      simp [applyAssignments, h1, h2]
    · have : applyAssignments [(n - 1, NodeRef.sender)]
          (applyAssignments ((List.range (n - 1)).map (fun i => (i, NodeRef.policy (i + 1)))) (fun _ => none)) j
          = applyAssignments ((List.range (n - 1)).map (fun i => (i, NodeRef.policy (i + 1)))) (fun _ => none) j := by
        simp [applyAssignments, hj]
      rw [this, applyAssignments_range]
      rcases Nat.lt_or_ge j (n - 1) with h | h
      · have h1 : j + 1 < n := by omega
        simp [h, h1]
      · have h1 : ¬ j < n - 1 := Nat.not_lt.mpr h
        have h2 : ¬ j + 1 < n := by omega
        have h3 : j + 1 ≠ n := by omega
        simp [h1, h2, h3]

theorem walk_policy (n : Nat) :
    ∀ (k i : Nat), i + k + 1 = n →
      walk (nextRef n) (k + 1) (NodeRef.policy i)
        = (List.range (k + 1)).map (fun j => NodeRef.policy (i + j)) ++ [NodeRef.sender] := by
  intro k
  induction k with
  | zero =>
      intro i hi
      have hlt : ¬ i + 1 < n := by omega
      have heq : i + 1 = n := by omega
      have h1 : nextRef n (NodeRef.policy i) = some NodeRef.sender := by
        simp [nextRef, nextOf_eq, hlt, heq]
      simp [walk, h1, List.range_succ]
  | succ k ih =>
      intro i hi
      have hlt : i + 1 < n := by omega
      have h1 : nextRef n (NodeRef.policy i) = some (NodeRef.policy (i + 1)) := by
        simp [nextRef, nextOf_eq, hlt]
      have h2 : (i + 1) + k + 1 = n := by omega
      have hstep : walk (nextRef n) (k + 1 + 1) (NodeRef.policy i)
          = NodeRef.policy i :: walk (nextRef n) (k + 1) (NodeRef.policy (i + 1)) := by
        conv_lhs => rw [walk]
        rw [h1]
      rw [hstep, ih (i + 1) h2]
      conv_rhs => rw [List.range_succ_eq_map, List.map_cons, List.map_map]
      rw [List.cons_append]
      congr 1
      simp
      omega

/-- Walking the `next` references from the first node visits exactly the
policy nodes in order and then the sender. -/
theorem walk_firstNode (n : Nat) :
    walk (nextRef n) n (firstNode n) = chainList n := by
  cases n with
  | zero => simp [walk, firstNode, chainList]
  | succ m =>
      have hfirst : firstNode (m + 1) = NodeRef.policy 0 := by
        simp [firstNode]
      rw [hfirst, walk_policy (m + 1) m 0 (by omega)]
      simp [chainList]

/-- Every walk is a `next`-chain: consecutive visited nodes are linked. -/
theorem walk_chain (nf : NodeRef → Option NodeRef) :
    ∀ (fuel : Nat) (x : NodeRef),
      List.Chain' (fun a b => nf a = some b) (walk nf fuel x) := by
  intro fuel
  induction fuel with
  | zero => intro x; simp [walk]
  | succ fuel ih =>
      intro x
      rw [walk]
      cases h : nf x with
      | none => simp
      | some y =>
          have hw : walk nf fuel y ≠ [] := by
            cases fuel <;> simp [walk]
          rw [List.chain'_cons']
          refine ⟨?_, ih y⟩
          intro z hz
          have : (walk nf fuel y).head? = some z := hz
          have hhead : (walk nf fuel y).head hw = y := by
            cases fuel <;> simp [walk]
          rw [List.head?_eq_head hw, hhead] at this
          cases this
          exact h

theorem chainList_nodup (n : Nat) : (chainList n).Nodup := by
  unfold chainList
  rw [List.nodup_append]
  refine ⟨?_, List.nodup_singleton _, ?_⟩
  · have hinj : Function.Injective NodeRef.policy := by
      intro a b h
      injection h
    exact (@List.nodup_range n).map hinj
  · intro x hx hx'
    simp at hx'
    subst hx'
    simp at hx

end MsrestAsyncPipeline

namespace MsrestAsyncPipeline

/-- C4: a pipeline constructed with zero policies routes `run` directly to
the sender: same request mutations (including the attached context) and the
same response as calling the sender's `send` on the context-carrying
request. -/
theorem run_empty_is_direct_sender_call {σ α ctx ρ ε : Type}
    (sender : AsyncHTTPSender σ α ctx ρ ε) (s : σ) (req : ClientRequest α ctx) :
    (AsyncPipeline.init [] sender).run s req = directSenderCall sender s req := by
  rfl

/-- C1: pipeline construction wraps each simplified policy in the adapter
preserving order (`_impl_policies` is the order-preserving image of the
given list, simplified entries wrapped), and the `next` links it assigns
give every inner policy node the following node, the last policy node the
sender, and nothing else; consequently the chain reachable from `run`'s
first node is exactly the `N` policy nodes in order followed by the sender,
`N + 1` nodes in all, with no duplicated node (hence no cycle) and each
consecutive pair linked by `next`. -/
theorem pipeline_chain_linear_no_cycle {σ α ctx ρ ε : Type}
    (policies : List (PipelinePolicyArg α ctx ρ ε))
    (sender : AsyncHTTPSender σ α ctx ρ ε) :
    (AsyncPipeline.init policies sender)._impl_policies = policies.map wrapPolicy
    ∧ (∀ sp : SansIOHTTPPolicy α ctx ρ,
        wrapPolicy (PipelinePolicyArg.sansio sp)
          = (ImplPolicy.sansioRunner sp : ImplPolicy α ctx ρ ε))
    ∧ (AsyncPipeline.init policies sender)._impl_policies.length = policies.length
    ∧ (∀ j, nextOf policies.length j
          = if j + 1 < policies.length then some (NodeRef.policy (j + 1))
            else if j + 1 = policies.length then some NodeRef.sender else none)
    ∧ nextRef policies.length NodeRef.sender = none
    ∧ walk (nextRef policies.length) policies.length (firstNode policies.length)
        = chainList policies.length
    ∧ (chainList policies.length).length = policies.length + 1
    ∧ (chainList policies.length).Nodup
    ∧ List.Chain' (fun a b => nextRef policies.length a = some b)
        (chainList policies.length) := by
  refine ⟨rfl, fun _ => rfl, by simp [AsyncPipeline.init], nextOf_eq policies.length, rfl,
    walk_firstNode policies.length, by simp [chainList], chainList_nodup policies.length, ?_⟩
  rw [← walk_firstNode policies.length]
  exact walk_chain (nextRef policies.length) policies.length (firstNode policies.length)

theorem nextAssignments_keys (n : Nat) :
    (nextAssignments n).map Prod.fst
      = List.range (n - 1) ++ (if n ≠ 0 then [n - 1] else []) := by
  unfold nextAssignments
  rw [List.map_append, List.map_map]
  congr 1
  · have : (Prod.fst ∘ fun i : Nat => (i, NodeRef.policy (i + 1))) = id := by
      funext i
      rfl
    rw [this, List.map_id]
  · split <;> rfl

/-- C9: the linking loop of `__init__` assigns each policy node's `next`
exactly once (each index below `N` occurs exactly once among the assignment
targets, and no other index is ever assigned), and `run` leaves the
pipeline object, hence the whole chain topology, untouched: threading the
pipeline through `run` returns it unchanged, for this and therefore every
subsequent invocation. -/
theorem next_assigned_once_and_topology_immutable {σ α ctx ρ ε : Type} :
    (∀ n i : Nat, i < n → ((nextAssignments n).map Prod.fst).count i = 1)
    ∧ (∀ n i : Nat, n ≤ i → ((nextAssignments n).map Prod.fst).count i = 0)
    ∧ (∀ (p : AsyncPipeline σ α ctx ρ ε) (s : σ) (req : ClientRequest α ctx),
        p.runThreading s req = (p, p.run s req)) := by
  refine ⟨?_, ?_, fun p s req => rfl⟩
  · intro n i hi
    rw [nextAssignments_keys, List.count_append]
    have hne : n ≠ 0 := by omega
    rw [if_pos hne]
    by_cases h : i < n - 1
    · have h1 : ((List.range (n - 1)).count i) = 1 :=
        List.count_eq_one_of_mem (@List.nodup_range (n - 1)) (List.mem_range.mpr h)
      have h2 : ([n - 1].count i) = 0 := by
        apply List.count_eq_zero.mpr
        simp
        omega
      omega
    · have hieq : i = n - 1 := by omega
      have h1 : ((List.range (n - 1)).count i) = 0 := by
        apply List.count_eq_zero.mpr
        simp
        omega
      have h2 : ([n - 1].count i) = 1 := by
        subst hieq
        simp
      omega
  · intro n i hi
    rw [nextAssignments_keys, List.count_append]
    have h1 : ((List.range (n - 1)).count i) = 0 := by
      apply List.count_eq_zero.mpr
      simp
      omega
    have h2 : ((if n ≠ 0 then [n - 1] else []).count i) = 0 := by
      apply List.count_eq_zero.mpr
      split <;> simp
      omega
    omega

theorem chainSend_append (l₁ l₂ : List (ImplPolicy α ctx ρ ε))
    (last : SendFn α ctx ρ ε) :
    chainSend (l₁ ++ l₂) last = chainSend l₁ (chainSend l₂ last) := by
  induction l₁ with
  | nil => rfl
  | cons node rest ih =>
      simp only [List.cons_append, chainSend, List.append_eq, ih]

theorem chainSend_sansio (ps : List (SansIOHTTPPolicy α ctx ρ))
    (last : SendFn α ctx ρ ε) :
    chainSend (ps.map ImplPolicy.sansioRunner) last = sansioChain ps last := by
  induction ps with
  | nil => rfl
  | cons p rest ih =>
      funext req
      simp only [List.map_cons, chainSend, ImplPolicy.sendWith, sansIORunnerSend, ih,
        sansioChain]

theorem seenRequests_ctx (ps : List (SansIOHTTPPolicy α ctx ρ))
    (req : ClientRequest α ctx)
    (hpres : ∀ p ∈ ps, ∀ r, (p.on_request r).pipeline_context = r.pipeline_context) :
    ∀ r ∈ seenRequests ps req, r.pipeline_context = req.pipeline_context := by
  induction ps generalizing req with
  | nil =>
      intro r hr
      simp only [seenRequests, List.mem_singleton] at hr
      subst hr
      rfl
  | cons p rest ih =>
      intro r hr
      simp only [seenRequests, List.mem_cons] at hr
      rcases hr with hr | hr
      · subst hr
        rfl
      · have h1 := ih (p.on_request req) (fun q hq => hpres q (List.mem_cons_of_mem _ hq)) r hr
        rw [h1, hpres p (List.mem_cons_self _ _)]

theorem onRequestFold_ctx (ps : List (SansIOHTTPPolicy α ctx ρ))
    (req : ClientRequest α ctx)
    (hpres : ∀ p ∈ ps, ∀ r, (p.on_request r).pipeline_context = r.pipeline_context) :
    (onRequestFold ps req).pipeline_context = req.pipeline_context := by
  induction ps generalizing req with
  | nil => rfl
  | cons p rest ih =>
      have h1 := ih (p.on_request req) (fun q hq => hpres q (List.mem_cons_of_mem _ hq))
      unfold onRequestFold at *
      rw [List.foldl_cons, h1, hpres p (List.mem_cons_self _ _)]

theorem sansioChain_sender_input (ps : List (SansIOHTTPPolicy α ctx ρ))
    (req : ClientRequest α ctx) (last lastB : SendFn α ctx ρ ε)
    (h : last (onRequestFold ps req) = lastB (onRequestFold ps req)) :
    sansioChain ps last req = sansioChain ps lastB req := by
  induction ps generalizing req with
  | nil => exact h
  | cons p rest ih =>
      have h2 : sansioChain rest last (p.on_request req)
          = sansioChain rest lastB (p.on_request req) := ih (p.on_request req) h
      simp only [sansioChain, h2]

theorem sansioChain_error (ps : List (SansIOHTTPPolicy α ctx ρ))
    (last : SendFn α ctx ρ ε) (req : ClientRequest α ctx) (e : ε)
    (herr : ∀ r, (last r).2 = Except.error e) :
    (sansioChain ps last req).2 = Except.error e := by
  induction ps generalizing req with
  | nil => exact herr req
  | cons p rest ih =>
      have h1 := ih (p.on_request req)
      rcases hx : sansioChain rest last (p.on_request req) with ⟨r2, out⟩
      rw [hx] at h1
      simp only at h1
      subst h1
      simp only [sansioChain, hx]

/-- Witness for the previous theorem at a concrete size: in a two-policy
pipeline each of the two policy nodes receives exactly one assignment,
index 2 (no such node) receives none, and a concrete `run` leaves a
concrete pipeline unchanged. -/
theorem next_assigned_once_and_topology_immutable_witness :
    ((nextAssignments 2).map Prod.fst).count 0 = 1
    ∧ ((nextAssignments 2).map Prod.fst).count 1 = 1
    ∧ ((nextAssignments 2).map Prod.fst).count 2 = 0
    ∧ (AsyncPipeline.init ([] : List (PipelinePolicyArg Unit Unit Nat String))
        { send := fun _ r => (r, Except.ok 200), aenter := id, aexit := id }).runThreading () ⟨none, ()⟩
      = (AsyncPipeline.init [] { send := fun _ r => (r, Except.ok 200), aenter := id, aexit := id },
         (AsyncPipeline.init [] { send := fun _ r => (r, Except.ok 200), aenter := id, aexit := id }).run () ⟨none, ()⟩) := by
  have h := @next_assigned_once_and_topology_immutable Unit Unit Unit Nat String
  exact ⟨h.1 2 0 (by decide), h.1 2 1 (by decide), h.2.1 2 2 (by decide),
    h.2.2 (AsyncPipeline.init [] { send := fun _ r => (r, Except.ok 200), aenter := id, aexit := id }) () ⟨none, ()⟩⟩

theorem run_init_sansio (ps : List (SansIOHTTPPolicy α ctx ρ))
    (sender : AsyncHTTPSender σ α ctx ρ ε) (s : σ) (req : ClientRequest α ctx) :
    (AsyncPipeline.init (ps.map PipelinePolicyArg.sansio) sender).run s req
      = sansioChain ps (sender.send s)
          { req with pipeline_context := sender.build_context s } := by
  show chainSend ((ps.map PipelinePolicyArg.sansio).map wrapPolicy) (sender.send s)
      { req with pipeline_context := sender.build_context s } = _
  rw [List.map_map]
  have hcomp : (wrapPolicy ∘ PipelinePolicyArg.sansio :
      SansIOHTTPPolicy α ctx ρ → ImplPolicy α ctx ρ ε) = ImplPolicy.sansioRunner := rfl
  rw [hcomp, chainSend_sansio]

/-- C2: `run` computes the sender's `build_context()`, attaches it to the
request, and hands that request to the chain starting at the first node
(the sender itself when the policy list is empty); `build_context` defaults
to null when an implementation does not override it; and in a pipeline of
simplified policies whose `on_request` hooks leave the context alone, a
non-null context is on the request seen by every policy's `on_request` and
on the request that finally reaches the sender. -/
theorem run_attaches_context_first {σ α ctx ρ ε : Type} :
    (∀ (p : AsyncPipeline σ α ctx ρ ε) (s : σ) (req : ClientRequest α ctx),
        p.run s req = chainSend p._impl_policies (p._sender.send s)
          { req with pipeline_context := p._sender.build_context s })
    ∧ (∀ (f : σ → SendFn α ctx ρ ε) (g h : σ → σ),
        ({ send := f, aenter := g, aexit := h } : AsyncHTTPSender σ α ctx ρ ε).build_context
          = fun _ => none)
    ∧ (∀ (ps : List (SansIOHTTPPolicy α ctx ρ)) (sender : AsyncHTTPSender σ α ctx ρ ε)
          (s : σ) (req : ClientRequest α ctx) (c : ctx),
        sender.build_context s = some c →
        (∀ p ∈ ps, ∀ r, (p.on_request r).pipeline_context = r.pipeline_context) →
        (AsyncPipeline.init (ps.map PipelinePolicyArg.sansio) sender).run s req
            = sansioChain ps (sender.send s) { req with pipeline_context := some c }
          ∧ (∀ r ∈ seenRequests ps { req with pipeline_context := some c },
              r.pipeline_context = some c)
          ∧ (onRequestFold ps { req with pipeline_context := some c }).pipeline_context
              = some c) := by
  refine ⟨fun p s req => rfl, fun f g h => rfl, ?_⟩
  intro ps sender s req c hc hpres
  refine ⟨?_, ?_, ?_⟩
  · rw [run_init_sansio, hc]
  · intro r hr
    have h1 := seenRequests_ctx ps { req with pipeline_context := some c } hpres r hr
    simpa using h1
  · have h1 := onRequestFold_ctx ps { req with pipeline_context := some c } hpres
    simpa using h1

/-- Witness for C2 at a concrete pipeline: one no-op simplified policy and
a sender whose context builder returns 5; the context is attached, seen at
every node, and carried to the sender. -/
theorem run_attaches_context_first_witness :
    (AsyncPipeline.init [PipelinePolicyArg.sansio idPolicyCtx] ctxSender).run () natCtxReq
        = sansioChain [idPolicyCtx] (ctxSender.send ())
            { natCtxReq with pipeline_context := some 5 }
    ∧ (∀ r ∈ seenRequests [idPolicyCtx] { natCtxReq with pipeline_context := some 5 },
        r.pipeline_context = some 5)
    ∧ (onRequestFold [idPolicyCtx]
        { natCtxReq with pipeline_context := some 5 }).pipeline_context = some 5 := by
  refine (@run_attaches_context_first Unit Unit Nat Nat String).2.2
    [idPolicyCtx] ctxSender () natCtxReq 5 rfl ?_
  intro p hp r
  have hp2 := List.mem_singleton.mp hp
  subst hp2
  rfl

/-- C3: the adapter calls `on_request`, forwards exactly once and
unconditionally to `next.send`, calls `on_response` on the request and the
returned response, and returns that response: its result is characterised
by one application of `next` to the `on_request`-mutated request; a
counting `next` observes exactly one forward; and the spec's three-node
scenario (simplified A, full B, sender) runs its hooks in the order
A.on_request, B.send, sender.send, A.on_response and returns the sender's
response unmodified. -/
theorem adapter_always_forwards_once {α ctx ρ ε : Type} :
    (∀ (p : SansIOHTTPPolicy α ctx ρ) (next : SendFn α ctx ρ ε)
        (req : ClientRequest α ctx),
        sansIORunnerSend p next req
          = match next (p.on_request req) with
            | (req2, Except.error e) => (req2, Except.error e)
            | (req2, Except.ok resp) =>
                ((p.on_response req2 resp).1, Except.ok (p.on_response req2 resp).2))
    ∧ (∀ (req : ClientRequest Nat Unit) (resp : Nat),
        sansIORunnerSend idPolicyCount
          ((fun r => ({ r with data := r.data + 1 }, Except.ok resp)) : SendFn Nat Unit Nat String)
          req
          = ({ req with data := req.data + 1 }, Except.ok resp))
    ∧ (AsyncPipeline.init [PipelinePolicyArg.sansio policyA, PipelinePolicyArg.full policyB]
        traceSender).run () traceReq
        = ({ pipeline_context := none,
             data := ["A.on_request", "B.send", "sender.send", "A.on_response"] },
           Except.ok 200) :=
  ⟨fun p next req => rfl, fun req resp => rfl, rfl⟩

/-- C5: a full policy that never consults its `next` reference (its send
does not depend on the continuation) makes every node after it unreachable:
the outcome of `run` is unchanged when all downstream policies and the
sender's transport behaviour (and even its state type) are replaced
arbitrarily, provided the replacement builds the same context. -/
theorem short_circuit_skips_downstream {σ σB α ctx ρ ε : Type}
    (pre : List (ImplPolicy α ctx ρ ε)) (p : AsyncHTTPPolicy α ctx ρ ε)
    (post postB : List (ImplPolicy α ctx ρ ε))
    (sender : AsyncHTTPSender σ α ctx ρ ε) (senderB : AsyncHTTPSender σB α ctx ρ ε)
    (s : σ) (sB : σB) (req : ClientRequest α ctx)
    (hsc : ∀ (r : ClientRequest α ctx) (k kB : SendFn α ctx ρ ε), p.send r k = p.send r kB)
    (hctx : sender.build_context s = senderB.build_context sB) :
    ({ _impl_policies := pre ++ ImplPolicy.full p :: post, _sender := sender }
        : AsyncPipeline σ α ctx ρ ε).run s req
      = ({ _impl_policies := pre ++ ImplPolicy.full p :: postB, _sender := senderB }
        : AsyncPipeline σB α ctx ρ ε).run sB req := by
  have hk : chainSend (ImplPolicy.full p :: post) (sender.send s)
      = chainSend (ImplPolicy.full p :: postB) (senderB.send sB) := by
    funext r
    show p.send r (chainSend post (sender.send s))
        = p.send r (chainSend postB (senderB.send sB))
    exact hsc r _ _
  show chainSend (pre ++ ImplPolicy.full p :: post) (sender.send s)
      { req with pipeline_context := sender.build_context s }
    = chainSend (pre ++ ImplPolicy.full p :: postB) (senderB.send sB)
      { req with pipeline_context := senderB.build_context sB }
  rw [chainSend_append, chainSend_append, hk, hctx]

/-- Witness for C5: with a short-circuiting policy in front, swapping a
healthy transport for one that always raises does not change the run, and
the run succeeds with the policy's answer although the transport raises. -/
theorem short_circuit_skips_downstream_witness :
    ({ _impl_policies := [ImplPolicy.full pconst], _sender := senderOk }
        : AsyncPipeline Unit Unit Unit Nat String).run () unitReq
      = ({ _impl_policies := [ImplPolicy.full pconst], _sender := senderBoom }
        : AsyncPipeline Unit Unit Unit Nat String).run () unitReq
    ∧ ({ _impl_policies := [ImplPolicy.full pconst], _sender := senderBoom }
        : AsyncPipeline Unit Unit Unit Nat String).run () unitReq
      = (unitReq, Except.ok 7) := by
  have h := short_circuit_skips_downstream [] pconst [] [] senderOk senderBoom () () unitReq
    (fun r k kB => rfl) rfl
  exact ⟨h, rfl⟩

/-- C6 (amended): `run` performs no scope-state check of its own — its
outcome depends on the scope state only through the sender's `send` and
`build_context`, so whether a run on an unopened or closed pipeline fails
is decided entirely by the sender: with a sender that requires the open
state the run fails (with the sender's error, not a pipeline usage error),
as the closed conjuncts show for both the unopened and the closed state. -/
theorem run_scope_check_absent {σ α ctx ρ ε : Type}
    (p : AsyncPipeline σ α ctx ρ ε) (s sB : σ) (req : ClientRequest α ctx)
    (hsend : p._sender.send s = p._sender.send sB)
    (hctx : p._sender.build_context s = p._sender.build_context sB) :
    p.run s req = p.run sB req
    ∧ (AsyncPipeline.init [] strictSender).run ScopeState.unopened unitReq
        = (unitReq, Except.error "session is not open")
    ∧ (AsyncPipeline.init [] strictSender).run ScopeState.closed unitReq
        = (unitReq, Except.error "session is not open") := by
  refine ⟨?_, rfl, rfl⟩
  show chainSend p._impl_policies (p._sender.send s)
      { req with pipeline_context := p._sender.build_context s }
    = chainSend p._impl_policies (p._sender.send sB)
      { req with pipeline_context := p._sender.build_context sB }
  rw [hsend, hctx]

/-- Witness for C6 (amended) at concrete senders and states. -/
theorem run_scope_check_absent_witness :
    (AsyncPipeline.init [] obliviousSender).run ScopeState.unopened unitReq
      = (AsyncPipeline.init [] obliviousSender).run ScopeState.opened unitReq
    ∧ (AsyncPipeline.init [] strictSender).run ScopeState.unopened unitReq
      = (unitReq, Except.error "session is not open") := by
  have h := run_scope_check_absent (AsyncPipeline.init [] obliviousSender)
    ScopeState.unopened ScopeState.opened unitReq rfl rfl
  exact ⟨h.1, h.2.1⟩

/-- C6 (counterexample to the claim as stated): on a pipeline whose scope
was never entered (state `unopened`), and on one whose scope was exited
(state `closed`), `run` does not fail with a usage error — with a sender
whose transport works regardless of scope it silently succeeds with a full
response. -/
theorem run_unopened_succeeds_counterexample :
    (AsyncPipeline.init [] obliviousSender).run ScopeState.unopened unitReq
        = (unitReq, Except.ok 200)
    ∧ (AsyncPipeline.init [] obliviousSender).run ScopeState.closed unitReq
        = (unitReq, Except.ok 200) :=
  ⟨rfl, rfl⟩

/-- C7: the synchronous scope-entry of the async pipeline and of the async
sender raise `TypeError("Use async with instead")` immediately, for every
pipeline and every sender: the returned outcome is that error, never a
success. -/
theorem sync_enter_raises_type_error {σ α ctx ρ ε : Type}
    (p : AsyncPipeline σ α ctx ρ ε) (snd : AsyncHTTPSender σ α ctx ρ ε) :
    p.enterSync = Except.error (PyUsageError.typeError "Use async with instead")
    ∧ snd.enterSync = Except.error (PyUsageError.typeError "Use async with instead") :=
  ⟨rfl, rfl⟩

/-- C8: a transport error propagates unchanged: the adapter returns exactly
the error its `next` raised, and a pipeline of simplified policies (which
cannot catch) returns exactly the error the sender raised; neither `run`
nor the adapter converts or retries it. -/
theorem transport_error_propagates {σ α ctx ρ ε : Type} :
    (∀ (p : SansIOHTTPPolicy α ctx ρ) (next : SendFn α ctx ρ ε)
        (req req2 : ClientRequest α ctx) (e : ε),
        next (p.on_request req) = (req2, Except.error e) →
        sansIORunnerSend p next req = (req2, Except.error e))
    ∧ (∀ (ps : List (SansIOHTTPPolicy α ctx ρ)) (sender : AsyncHTTPSender σ α ctx ρ ε)
        (s : σ) (req : ClientRequest α ctx) (e : ε),
        (∀ r, (sender.send s r).2 = Except.error e) →
        ((AsyncPipeline.init (ps.map PipelinePolicyArg.sansio) sender).run s req).2
          = Except.error e) := by
  constructor
  · intro p next req req2 e h
    simp only [sansIORunnerSend, h]
  · intro ps sender s req e herr
    rw [run_init_sansio]
    exact sansioChain_error ps (sender.send s) _ e herr

/-- Witness for C8: a concrete raising transport behind a concrete no-op
simplified policy; the error reaches the caller unchanged. -/
theorem transport_error_propagates_witness :
    sansIORunnerSend idPolicy (senderBoom.send ()) unitReq
        = (unitReq, Except.error "boom")
    ∧ ((AsyncPipeline.init [PipelinePolicyArg.sansio idPolicy] senderBoom).run () unitReq).2
        = Except.error "boom" := by
  have h := @transport_error_propagates Unit Unit Unit Nat String
  exact ⟨h.1 idPolicy (senderBoom.send ()) unitReq unitReq "boom" rfl,
    h.2 [idPolicy] senderBoom () unitReq "boom" (fun r => rfl)⟩

/-- C10: the request's pipeline context is unconditionally overwritten on
every run — the incoming context value is irrelevant to the whole outcome —
and when the sender raises, the request that comes back still carries the
newly attached context: `run` is not atomic with respect to the request. -/
theorem run_overwrites_context_even_on_error {σ α ctx ρ ε : Type} :
    (∀ (p : AsyncPipeline σ α ctx ρ ε) (s : σ) (req : ClientRequest α ctx)
        (c : Option ctx),
        p.run s { req with pipeline_context := c } = p.run s req)
    ∧ (∀ (sender : AsyncHTTPSender σ α ctx ρ ε) (s : σ) (req : ClientRequest α ctx)
        (e : ε),
        (∀ r, sender.send s r = (r, Except.error e)) →
        (AsyncPipeline.init [] sender).run s req
          = ({ req with pipeline_context := sender.build_context s }, Except.error e)) := by
  constructor
  · intro p s req c
    rfl
  · intro sender s req e herr
    show sender.send s { req with pipeline_context := sender.build_context s } = _
    rw [herr]

/-- Witness for C10: a raising transport; the incoming context value does
not matter and the error result carries the context-bearing request. -/
theorem run_overwrites_context_even_on_error_witness :
    (AsyncPipeline.init [] senderBoom).run () { unitReq with pipeline_context := some () }
      = (AsyncPipeline.init [] senderBoom).run () unitReq
    ∧ (AsyncPipeline.init [] senderBoom).run () unitReq
      = (unitReq, Except.error "boom") := by
  have h := @run_overwrites_context_even_on_error Unit Unit Unit Nat String
  refine ⟨h.1 (AsyncPipeline.init [] senderBoom) () unitReq (some ()), ?_⟩
  exact h.2 senderBoom () unitReq "boom" (fun r => rfl)

end MsrestAsyncPipeline
